import Mathlib

/-!
Shallow embedding of `exec.go` (package `pool`, repository go-exec-pool).

The Go code is a bounded-concurrency executor: commands are enqueued into
`cmdQueue`, `Start` loads them into a buffered channel and spawns workers,
each worker runs commands and emits `CommandResult`s, and `Wait` drains the
collection channel into `cmdOutput`.

Modelling conventions:
* `exec.Cmd` (an external collaborator) is modelled by `GoCmd`: its fields
  record the behaviour of the underlying process (whether launch fails, the
  exit status, the text it writes to its stdout/stderr), plus the mutable
  fields the pool touches (`env`, `processState`).  `GoCmd.run` models
  `(*exec.Cmd).Run`: on launch failure it returns an error and leaves
  `ProcessState` nil; otherwise it sets `ProcessState` and returns an
  `*ExitError` exactly when the exit status is non-zero.
* `os.ProcessState.ExitCode` is nil-tolerant in Go (it returns -1 when the
  receiver is nil, i.e. when the process never started); `exitCodeOf`
  models that.
* Go method calls that mutate the receiver and return an error are modelled
  as functions `ExecPool → ... → ExecPool × Option String` (new state,
  error); `nil` error is `none`.
* `time.Now().Format(time.RFC3339Nano)` and `time.Now()` are external
  inputs; the corresponding functions take the current time as an explicit
  parameter (a `String` for the formatted form, a `Nat` for the timestamps).
* `rand.Intn` is external randomness; `RandomString` takes the stream of
  drawn values as a function `Nat → Nat` (the Go call site guarantees the
  draw is reduced modulo the alphabet length, which we apply explicitly).
* Channels are modelled by the list of values they carry.  The concurrent
  phase between `Start` and `Wait` is modelled by quantifying over the
  sequence `out` of results that the workers place on the collection
  channel: Go channel semantics deliver each buffered request to exactly
  one receiver, and (when at least one worker exists) every request is
  consumed because the dispatch channel is closed after loading, so `out`
  is some permutation of running each dispatched request once
  (`WorkersOutcome`).  With zero workers nothing is ever consumed and
  `out` is empty.
-/

/-- Model of the external `exec.Cmd` collaborator. -/
structure GoCmd where
  /-- `cmd.Env` (nil ↔ `none`). -/
  env : Option (List String) := none
  /-- behaviour: the process cannot be started (missing executable, …). -/
  launchFails : Bool := false
  /-- behaviour: the error message `Run` returns when launch fails. -/
  launchErrMsg : String := "exec: no such file"
  /-- behaviour: the exit status the process exits with when it does run. -/
  exitStatus : Int := 0
  /-- behaviour: text the process writes to its standard output. -/
  stdoutText : String := ""
  /-- behaviour: text the process writes to its standard error. -/
  stderrText : String := ""
  /-- `cmd.ProcessState`: `none` = nil (not run / launch failed),
      `some k` = the process ran and exited with status `k`. -/
  processState : Option Int := none
  deriving Repr, DecidableEq

/-- Model of `(*exec.Cmd).Run` with buffers bound to stdout/stderr:
returns the command after the run, the run error, and the text captured in
the two buffers.  On launch failure nothing is written and `ProcessState`
stays nil; otherwise `ProcessState` is set and the error is an `ExitError`
exactly when the exit status is non-zero. -/
def GoCmd.run (c : GoCmd) : GoCmd × Option String × String × String :=
  if c.launchFails then
    (c, some c.launchErrMsg, "", "")
  else
    ({ c with processState := some c.exitStatus },
     if c.exitStatus = 0 then none else some ("exit status " ++ toString c.exitStatus),
     c.stdoutText, c.stderrText)

/-- Model of `(*os.ProcessState).ExitCode`: Go returns -1 when the receiver
is nil (process never started). -/
def exitCodeOf : Option Int → Int
  | none => -1
  | some k => k

/-- `CommandRequest` from exec.go (lines 48–52). -/
structure CommandRequest where
  jobSequence : Nat
  jobId : String
  command : GoCmd
  deriving Repr, DecidableEq

/-- `CommandResult` from exec.go (lines 54–61). -/
structure CommandResult where
  JobSequence : Nat
  JobId : String
  RunError : Option String
  StdOut : String
  StdErr : String
  ReturnCode : Int
  deriving Repr, DecidableEq

/-- `ExecPool` from exec.go (lines 34–46).  Channels are the lists of
values they carry; `waitGroup` needs no state of its own in this model
(the barrier is captured by `WorkersOutcome`). -/
structure ExecPool where
  workerChanIn : List CommandRequest := []
  workerChanOut : List CommandResult := []
  executors : Nat := 0
  cmdOutput : List CommandResult := []
  cmdQueue : List CommandRequest := []
  startTime : Nat := 0
  endTime : Nat := 0
  inputClosed : Bool := false
  poolId : String := ""
  cmdEnv : List String := []
  deriving Repr, DecidableEq

/-- The alphabet of `RandomString` (exec.go line 181). -/
def letters : List Char :=
  "abcdefghijklmnopqrstuvwxyzABCDEFGHIJKLMNOPQRSTUVWXYZ0123456789".data

/-- `RandomString` (exec.go lines 180–188); `rnd i` is the value drawn by
`rand.Intn(len(letters))` at iteration `i`, reduced modulo the alphabet
size exactly as `Intn` guarantees. -/
def RandomString (n : Nat) (rnd : Nat → Nat) : String :=
  String.mk ((List.range n).map (fun i =>
    letters.get ⟨rnd i % letters.length, Nat.mod_lt _ (by decide)⟩))

/-- `NewExecPool` (exec.go lines 63–69). -/
def NewExecPool (executors : Nat) (rnd : Nat → Nat) : ExecPool :=
  { executors := executors
    inputClosed := false
    poolId := RandomString 12 rnd }

/-- Decimal digits of a natural number, most significant first: the
rendering `%d` performs. -/
def natToDigits (n : Nat) : List Char :=
  if h : n < 10 then [Char.ofNat (48 + n)]
  else natToDigits (n / 10) ++ [Char.ofNat (48 + n % 10)]
  decreasing_by exact Nat.div_lt_self (by omega) (by omega)

/-- Zero padding to width `w`: the rendering `%0*d` performs. -/
def padZeros (w : Nat) (l : List Char) : List Char :=
  List.replicate (w - l.length) '0' ++ l

/-- The job identifier minted by `AddCommand` (exec.go line 73):
`fmt.Sprintf("%s-%012d-%s", now, seq, poolId)` where `now` is
`time.Now().Format(time.RFC3339Nano)`. -/
def jobIdString (now : String) (seq : Nat) (poolId : String) : String :=
  now ++ "-" ++ String.mk (padZeros 12 (natToDigits seq)) ++ "-" ++ poolId

/-- `AddCommand` (exec.go lines 71–82): mutates the pool, returns the id.
Note the source has no `inputClosed` guard here. -/
def AddCommand (e : ExecPool) (now : String) (cmd : GoCmd) :
    ExecPool × String :=
  let seq := e.cmdQueue.length
  let id := jobIdString now seq e.poolId
  let cmdRequest : CommandRequest :=
    { jobSequence := seq, jobId := id, command := cmd }
  ({ e with cmdQueue := e.cmdQueue ++ [cmdRequest] }, id)

/-- `AddEnv` (exec.go lines 84–90). -/
def AddEnv (e : ExecPool) (envSetting : String) : ExecPool × Option String :=
  if e.inputClosed then
    (e, some "can not set env after jobs have started")
  else
    ({ e with cmdEnv := e.cmdEnv ++ [envSetting] }, none)

/-- The per-request transformation `Start` applies while loading the
dispatch channel (exec.go lines 104–113): when `cmdEnv` is non-nil it is
written into the command, and the request is copied field by field. -/
def loadRequest (cmdEnv : List String) (r : CommandRequest) : CommandRequest :=
  { jobSequence := r.jobSequence
    jobId := r.jobId
    command := if cmdEnv ≠ [] then { r.command with env := some cmdEnv }
               else r.command }

/-- `Start` (exec.go lines 92–127): guard on `inputClosed`, create the two
channels, load every queued request (applying the env overrides) into the
dispatch channel, close it, record the start time, spawn the workers.
Spawning is modelled by `WorkersOutcome` below. -/
def Start (e : ExecPool) (now : Nat) : ExecPool × Option String :=
  if e.inputClosed then
    (e, some "can not start again")
  else
    ({ e with
        inputClosed := true
        workerChanIn := e.cmdQueue.map (loadRequest e.cmdEnv)
        workerChanOut := []
        startTime := now }, none)

/-- The body of the worker loop for one received job (exec.go lines
162–175): bind fresh buffers, run the command, build the result.  The Go
composite literal at lines 168–174 does not mention `JobSequence`, so that
field gets Go's zero value 0. -/
def workerStep (job : CommandRequest) : CommandResult :=
  let r := job.command.run
  { JobSequence := 0
    JobId := job.jobId
    RunError := r.2.1
    StdOut := r.2.2.1
    StdErr := r.2.2.2
    ReturnCode := exitCodeOf r.1.processState }

/-- The sequence `out` of results the workers put on the collection channel
between `Start` and `Wait`.  Each buffered request is delivered to exactly
one worker (channel semantics) and, when at least one worker exists, all
requests are consumed because the dispatch channel is closed after
loading; the interleaving of sends by different workers is arbitrary,
hence a permutation.  With zero workers nothing is consumed. -/
def WorkersOutcome (e : ExecPool) (out : List CommandResult) : Prop :=
  if e.executors = 0 then out = []
  else out.Perm (e.workerChanIn.map workerStep)

instance (e : ExecPool) (out : List CommandResult) :
    Decidable (WorkersOutcome e out) := by
  unfold WorkersOutcome; infer_instance

/-- `Wait` (exec.go lines 129–148): guard on `inputClosed`; wait for the
workers, close the collection channel, drain it into `cmdOutput`, record
the end time.  `out` is the collection channel's content at that moment
(see `WorkersOutcome`). -/
def Wait (e : ExecPool) (out : List CommandResult) (now : Nat) :
    ExecPool × Option String :=
  if !e.inputClosed then
    (e, some "attempting to wait for jobs that have not started")
  else
    ({ e with
        cmdOutput := e.cmdOutput ++ out
        workerChanOut := []
        endTime := now }, none)

/-- `GetResults` (exec.go lines 150–157): linear scan of `cmdOutput`,
first match or nil. -/
def GetResults (e : ExecPool) (jobId : String) : Option CommandResult :=
  e.cmdOutput.find? (fun output => output.JobId == jobId)

/-- `AddCommand` folded over a list of (formatted time, command) pairs:
the caller-side loop of repeated enqueues. -/
def enqueueAll (e : ExecPool) (jobs : List (String × GoCmd)) : ExecPool :=
  jobs.foldl (fun acc tc => (AddCommand acc tc.1 tc.2).1) e

/-- Numeric value of a list of decimal digit characters, starting from an
accumulator (used to invert `natToDigits`). -/
def digitsValFrom (a : Nat) (l : List Char) : Nat :=
  l.foldl (fun acc c => acc * 10 + (c.toNat - 48)) a

/-- Every queued request's sequence number is its position, and its id was
minted by `AddCommand` at that position: the invariant every pool built by
enqueueing into a fresh pool satisfies. -/
def QueueWellFormed (e : ExecPool) : Prop :=
  ∀ i (h : i < e.cmdQueue.length),
    (e.cmdQueue[i]).jobSequence = i ∧
    ∃ t, (e.cmdQueue[i]).jobId = jobIdString t i e.poolId

/-- A fixed random stream, for concrete pools. -/
def zeroRnd : Nat → Nat := fun _ => 0

/-- A command that runs and exits 0 producing no output. -/
def sampleCmd : GoCmd := {}

/-- A command whose process cannot be launched. -/
def failCmd : GoCmd := { launchFails := true }

/-- A concrete pool that has been started. -/
def startedPool : ExecPool := (Start (NewExecPool 1 zeroRnd) 5).1

/-- A concrete request wrapping a command that cannot be launched. -/
def failReq : CommandRequest :=
  { jobSequence := 0, jobId := "job-1", command := failCmd }

/-- A concrete one-worker pool with one enqueued command, started. -/
def readyPool : ExecPool :=
  (Start (enqueueAll (NewExecPool 1 zeroRnd) [("T", sampleCmd)]) 3).1

/-- One possible collection-channel content for `readyPool`. -/
def readyOut : List CommandResult := readyPool.workerChanIn.map workerStep

/-! ### Decimal rendering: basic facts -/

theorem dash_data : ("-" : String).data = ['-'] := rfl

theorem mk_data (l : List Char) : (String.mk l).data = l := rfl

theorem digitChar_isDigit : ∀ d < 10, (Char.ofNat (48 + d)).isDigit := by decide

theorem digitChar_toNat : ∀ d < 10, (Char.ofNat (48 + d)).toNat = 48 + d := by decide

theorem natToDigits_isDigit (n : Nat) : ∀ c ∈ natToDigits n, c.isDigit := by
  induction n using Nat.strong_induction_on with
  | _ n ih =>
    unfold natToDigits
    split
    · next h =>
      intro c hc
      simp only [List.mem_singleton] at hc
      subst hc
      exact digitChar_isDigit n h
    · next h =>
      intro c hc
      rcases List.mem_append.mp hc with h1 | h2
      · exact ih (n / 10) (Nat.div_lt_self (by omega) (by omega)) c h1
      · simp only [List.mem_singleton] at h2
        subst h2
        exact digitChar_isDigit (n % 10) (Nat.mod_lt _ (by omega))

theorem digitsValFrom_append (a : Nat) (l1 l2 : List Char) :
    digitsValFrom a (l1 ++ l2) = digitsValFrom (digitsValFrom a l1) l2 := by
  simp [digitsValFrom, List.foldl_append]

theorem digitsValFrom_singleton (a : Nat) (c : Char) :
    digitsValFrom a [c] = a * 10 + (c.toNat - 48) := rfl

theorem natToDigits_valFrom (n : Nat) :
    ∀ a, digitsValFrom a (natToDigits n) = a * 10 ^ (natToDigits n).length + n := by
  induction n using Nat.strong_induction_on with
  | _ n ih =>
    intro a
    unfold natToDigits
    split
    · next h =>
      rw [digitsValFrom_singleton, digitChar_toNat n h]
      simp
    · next h =>
      have hlt : n / 10 < n := Nat.div_lt_self (by omega) (by omega)
      rw [digitsValFrom_append, digitsValFrom_singleton, ih (n / 10) hlt a,
        digitChar_toNat (n % 10) (Nat.mod_lt _ (by omega)),
        List.length_append, List.length_singleton, pow_succ]
      have h48 : 48 + n % 10 - 48 = n % 10 := by omega
      rw [h48]
      calc (a * 10 ^ (natToDigits (n / 10)).length + n / 10) * 10 + n % 10
          = a * (10 ^ (natToDigits (n / 10)).length * 10)
            + (n / 10 * 10 + n % 10) := by ring
        _ = a * (10 ^ (natToDigits (n / 10)).length * 10) + n := by
            have hdm : n / 10 * 10 + n % 10 = n := by omega
            rw [hdm]

theorem natToDigits_val (n : Nat) : digitsValFrom 0 (natToDigits n) = n := by
  simpa using natToDigits_valFrom n 0

theorem valFrom_zero_replicate (k : Nat) :
    digitsValFrom 0 (List.replicate k '0') = 0 := by
  induction k with
  | zero => rfl
  | succ k ih =>
    rw [List.replicate_succ]
    show digitsValFrom (0 * 10 + ('0'.toNat - 48)) (List.replicate k '0') = 0
    simpa using ih

theorem padZeros_val (w n : Nat) :
    digitsValFrom 0 (padZeros w (natToDigits n)) = n := by
  unfold padZeros
  rw [digitsValFrom_append, valFrom_zero_replicate, natToDigits_val]

theorem padZeros_natToDigits_inj {w n1 n2 : Nat}
    (h : padZeros w (natToDigits n1) = padZeros w (natToDigits n2)) :
    n1 = n2 := by
  have h1 := padZeros_val w n1
  rw [h, padZeros_val] at h1
  omega

theorem padZeros_isDigit (w n : Nat) :
    ∀ c ∈ padZeros w (natToDigits n), c.isDigit := by
  intro c hc
  unfold padZeros at hc
  rcases List.mem_append.mp hc with h1 | h2
  · rw [List.eq_of_mem_replicate h1]; decide
  · exact natToDigits_isDigit n c h2

/-! ### A run of digit characters delimited by a dash determines the split -/

theorem digit_run_before_dash :
    ∀ (r1 r2 b1 b2 : List Char), (∀ c ∈ r1, c.isDigit) → (∀ c ∈ r2, c.isDigit) →
      r1 ++ '-' :: b1 = r2 ++ '-' :: b2 → r1 = r2 ∧ b1 = b2 := by
  intro r1
  induction r1 with
  | nil =>
    intro r2 b1 b2 _ h2 heq
    cases r2 with
    | nil => simpa using heq
    | cons c t =>
      rw [List.nil_append, List.cons_append] at heq
      injection heq with hc _
      have hd := h2 c (by simp)
      rw [← hc] at hd
      exact absurd hd (by decide)
  | cons c1 t1 ih =>
    intro r2 b1 b2 h1 h2 heq
    cases r2 with
    | nil =>
      rw [List.nil_append, List.cons_append] at heq
      injection heq with hc _
      have hd := h1 c1 (by simp)
      rw [hc] at hd
      exact absurd hd (by decide)
    | cons c2 t2 =>
      rw [List.cons_append, List.cons_append] at heq
      injection heq with hc ht
      obtain ⟨ht12, hb⟩ := ih t2 b1 b2
        (fun c hc => h1 c (List.mem_cons_of_mem _ hc))
        (fun c hc => h2 c (List.mem_cons_of_mem _ hc)) ht
      exact ⟨by rw [hc, ht12], hb⟩

theorem dash_digit_suffix {a1 a2 d1 d2 : List Char}
    (h1 : ∀ c ∈ d1, c.isDigit) (h2 : ∀ c ∈ d2, c.isDigit)
    (heq : a1 ++ '-' :: d1 = a2 ++ '-' :: d2) : a1 = a2 ∧ d1 = d2 := by
  have hrev : d1.reverse ++ '-' :: a1.reverse
      = d2.reverse ++ '-' :: a2.reverse := by
    have h := congrArg List.reverse heq
    simpa [List.reverse_append, List.append_assoc] using h
  obtain ⟨hd, ha⟩ := digit_run_before_dash d1.reverse d2.reverse
    a1.reverse a2.reverse
    (fun c hc => h1 c (List.mem_reverse.mp hc))
    (fun c hc => h2 c (List.mem_reverse.mp hc)) hrev
  exact ⟨List.reverse_injective ha, List.reverse_injective hd⟩

/-- The job identifier determines the sequence number, whatever the two
formatted timestamps were: the `%012d` block is all digits, sits between
two dashes, and decodes to the sequence number. -/
theorem jobIdString_seq_inj {t1 t2 p : String} {s1 s2 : Nat}
    (h : jobIdString t1 s1 p = jobIdString t2 s2 p) : s1 = s2 := by
  have hd := congrArg String.data h
  unfold jobIdString at hd
  simp only [String.data_append, dash_data, mk_data, List.append_assoc,
    List.singleton_append] at hd
  simp only [← List.append_assoc] at hd
  have hx := List.append_cancel_right hd
  obtain ⟨-, hpad⟩ := dash_digit_suffix
    (padZeros_isDigit 12 s1) (padZeros_isDigit 12 s2) hx
  exact padZeros_natToDigits_inj hpad

/-! ### Queue invariant: sequence numbers are positions, ids are minted -/

theorem addCommand_state (e : ExecPool) (t : String) (c : GoCmd) :
    (AddCommand e t c).1 = { e with cmdQueue := e.cmdQueue ++
      [{ jobSequence := e.cmdQueue.length
         jobId := jobIdString t e.cmdQueue.length e.poolId
         command := c }] } := rfl

theorem addCommand_id (e : ExecPool) (t : String) (c : GoCmd) :
    (AddCommand e t c).2 = jobIdString t e.cmdQueue.length e.poolId := rfl

theorem queueWF_new (w : Nat) (rnd : Nat → Nat) :
    QueueWellFormed (NewExecPool w rnd) := by
  intro i h
  exact absurd h (by simp [NewExecPool])

theorem addCommand_queue (e : ExecPool) (t : String) (c : GoCmd) :
    (AddCommand e t c).1.cmdQueue = e.cmdQueue ++
      [{ jobSequence := e.cmdQueue.length
         jobId := jobIdString t e.cmdQueue.length e.poolId
         command := c }] := rfl

theorem addCommand_poolId (e : ExecPool) (t : String) (c : GoCmd) :
    (AddCommand e t c).1.poolId = e.poolId := rfl

theorem addCommand_inputClosed (e : ExecPool) (t : String) (c : GoCmd) :
    (AddCommand e t c).1.inputClosed = e.inputClosed := rfl

theorem addCommand_executors (e : ExecPool) (t : String) (c : GoCmd) :
    (AddCommand e t c).1.executors = e.executors := rfl

theorem addCommand_cmdEnv (e : ExecPool) (t : String) (c : GoCmd) :
    (AddCommand e t c).1.cmdEnv = e.cmdEnv := rfl

theorem addCommand_cmdOutput (e : ExecPool) (t : String) (c : GoCmd) :
    (AddCommand e t c).1.cmdOutput = e.cmdOutput := rfl

theorem addCommand_queue_len (e : ExecPool) (t : String) (c : GoCmd) :
    (AddCommand e t c).1.cmdQueue.length = e.cmdQueue.length + 1 := by
  rw [addCommand_queue]
  simp

theorem queueWF_addCommand {e : ExecPool} (hwf : QueueWellFormed e)
    (t : String) (c : GoCmd) : QueueWellFormed (AddCommand e t c).1 := by
  intro i h
  simp only [addCommand_queue, addCommand_poolId, List.length_append,
    List.length_singleton] at h ⊢
  by_cases hi : i < e.cmdQueue.length
  · rw [List.getElem_append_left hi]
    exact hwf i hi
  · have hie : i = e.cmdQueue.length := by omega
    subst hie
    rw [List.getElem_append_right (by omega)]
    simp only [Nat.sub_self, List.getElem_singleton]
    exact ⟨trivial, t, rfl⟩

theorem queueWF_enqueueAll {e : ExecPool} (hwf : QueueWellFormed e)
    (jobs : List (String × GoCmd)) : QueueWellFormed (enqueueAll e jobs) := by
  induction jobs generalizing e with
  | nil => exact hwf
  | cons j rest ih => exact ih (queueWF_addCommand hwf j.1 j.2)

theorem queueWF_ids_nodup {e : ExecPool} (hwf : QueueWellFormed e) :
    (e.cmdQueue.map CommandRequest.jobId).Nodup := by
  rw [List.nodup_iff_injective_get]
  intro a b hab
  have ha : a.val < e.cmdQueue.length := by
    have := a.isLt; simpa using this
  have hb : b.val < e.cmdQueue.length := by
    have := b.isLt; simpa using this
  have hab2 : (e.cmdQueue[a.val]).jobId = (e.cmdQueue[b.val]).jobId := by
    simpa [List.get_eq_getElem] using hab
  obtain ⟨-, ta, hta⟩ := hwf a.val ha
  obtain ⟨-, tb, htb⟩ := hwf b.val hb
  rw [hta, htb] at hab2
  exact Fin.ext (jobIdString_seq_inj hab2)

theorem enqueueAll_cons (e : ExecPool) (j : String × GoCmd)
    (rest : List (String × GoCmd)) :
    enqueueAll e (j :: rest) = enqueueAll (AddCommand e j.1 j.2).1 rest := rfl

theorem enqueueAll_fields (e : ExecPool) (jobs : List (String × GoCmd)) :
    (enqueueAll e jobs).poolId = e.poolId ∧
    (enqueueAll e jobs).inputClosed = e.inputClosed ∧
    (enqueueAll e jobs).executors = e.executors ∧
    (enqueueAll e jobs).cmdEnv = e.cmdEnv ∧
    (enqueueAll e jobs).cmdOutput = e.cmdOutput ∧
    (enqueueAll e jobs).cmdQueue.length = e.cmdQueue.length + jobs.length := by
  induction jobs generalizing e with
  | nil => simp [enqueueAll]
  | cons j rest ih =>
    rw [enqueueAll_cons]
    obtain ⟨h1, h2, h3, h4, h5, h6⟩ := ih (AddCommand e j.1 j.2).1
    refine ⟨?_, ?_, ?_, ?_, ?_, ?_⟩
    · rw [h1, addCommand_poolId]
    · rw [h2, addCommand_inputClosed]
    · rw [h3, addCommand_executors]
    · rw [h4, addCommand_cmdEnv]
    · rw [h5, addCommand_cmdOutput]
    · rw [h6, addCommand_queue_len]
      simp [List.length_cons]
      omega

/-! ### Start, Wait and worker: unfolding lemmas -/

theorem start_not_started {e : ExecPool} (h : e.inputClosed = false)
    (now : Nat) :
    Start e now = ({ e with
      inputClosed := true
      workerChanIn := e.cmdQueue.map (loadRequest e.cmdEnv)
      workerChanOut := []
      startTime := now }, none) := by
  simp [Start, h]

theorem start_started {e : ExecPool} (h : e.inputClosed = true) (now : Nat) :
    Start e now = (e, some "can not start again") := by
  simp [Start, h]

theorem wait_not_started {e : ExecPool} (h : e.inputClosed = false)
    (out : List CommandResult) (now : Nat) :
    Wait e out now
      = (e, some "attempting to wait for jobs that have not started") := by
  simp [Wait, h]

theorem wait_started {e : ExecPool} (h : e.inputClosed = true)
    (out : List CommandResult) (now : Nat) :
    Wait e out now = ({ e with
      cmdOutput := e.cmdOutput ++ out
      workerChanOut := []
      endTime := now }, none) := by
  simp [Wait, h]

theorem workerStep_JobId (job : CommandRequest) :
    (workerStep job).JobId = job.jobId := rfl

theorem workerStep_JobSequence (job : CommandRequest) :
    (workerStep job).JobSequence = 0 := rfl

theorem loadRequest_jobId (env : List String) (r : CommandRequest) :
    (loadRequest env r).jobId = r.jobId := rfl

theorem workerStep_loadRequest_JobId (env : List String) (r : CommandRequest) :
    (workerStep (loadRequest env r)).JobId = r.jobId := rfl

theorem workersOutcome_pos {e : ExecPool} (h : e.executors ≠ 0)
    {out : List CommandResult} (hout : WorkersOutcome e out) :
    out.Perm (e.workerChanIn.map workerStep) := by
  unfold WorkersOutcome at hout
  rwa [if_neg h] at hout

/-! ### Claims -/

/-- C4: on a pool whose first `Start` succeeded, a second `Start` returns
the "can not start again" error and returns with the pool state exactly as
the first `Start` left it (no job re-dispatched, queue, channels, result
store and started flag unchanged). -/
theorem spec_C4 (e : ExecPool) (n1 n2 : Nat) (h : (Start e n1).2 = none) :
    Start (Start e n1).1 n2 = ((Start e n1).1, some "can not start again") := by
  by_cases hc : e.inputClosed = true
  · rw [start_started hc] at h
    exact absurd h (by simp)
  · have hc2 : e.inputClosed = false := by simpa using hc
    rw [start_not_started hc2]
    exact start_started rfl n2

/-- Witness for C4, on a concrete fresh pool. -/
theorem spec_C4_witness :
    Start (Start (NewExecPool 1 zeroRnd) 0).1 1
      = ((Start (NewExecPool 1 zeroRnd) 0).1, some "can not start again") :=
  spec_C4 (NewExecPool 1 zeroRnd) 0 1 rfl

/-- C5: `AddEnv` on a started pool returns the "already started" error and
leaves the pool (in particular the environment-override list) unchanged;
on a pool not yet started it appends the setting and returns no error. -/
theorem spec_C5 (e : ExecPool) (s : String) :
    (e.inputClosed = true →
      AddEnv e s = (e, some "can not set env after jobs have started")) ∧
    (e.inputClosed = false →
      AddEnv e s = ({ e with cmdEnv := e.cmdEnv ++ [s] }, none)) := by
  constructor
  · intro h
    simp [AddEnv, h]
  · intro h
    simp [AddEnv, h]

/-- Witness for C5: a started pool and a fresh pool. -/
theorem spec_C5_witness :
    AddEnv startedPool "A=1"
      = (startedPool, some "can not set env after jobs have started") ∧
    AddEnv (NewExecPool 1 zeroRnd) "A=1"
      = ({ NewExecPool 1 zeroRnd with cmdEnv := ["A=1"] }, none) := by
  constructor
  · exact (spec_C5 startedPool "A=1").1 rfl
  · have h := (spec_C5 (NewExecPool 1 zeroRnd) "A=1").2 rfl
    simpa using h

/-- C6: `Wait` on a pool that was never started returns the "not started"
error immediately and leaves the pool — result store, timestamps and all —
unchanged. -/
theorem spec_C6 (e : ExecPool) (out : List CommandResult) (now : Nat)
    (h : e.inputClosed = false) :
    Wait e out now
      = (e, some "attempting to wait for jobs that have not started") :=
  wait_not_started h out now

/-- Witness for C6, on a concrete fresh pool. -/
theorem spec_C6_witness :
    Wait (NewExecPool 2 zeroRnd) [] 7
      = (NewExecPool 2 zeroRnd,
         some "attempting to wait for jobs that have not started") :=
  spec_C6 (NewExecPool 2 zeroRnd) [] 7 rfl

/-- C7: enqueueing on a not-yet-started pool always succeeds (the
operation has no error result at all, and is permitted for any worker
count, including zero): the new request gets sequence number equal to the
current queue length, the returned identifier embeds the formatted time,
the zero-padded sequence number and the pool identifier, and the queue
grows by exactly the one appended request. -/
theorem spec_C7 (e : ExecPool) (t : String) (c : GoCmd)
    (_h : e.inputClosed = false) :
    (AddCommand e t c).2
        = t ++ "-" ++ String.mk (padZeros 12 (natToDigits e.cmdQueue.length))
          ++ "-" ++ e.poolId ∧
    (AddCommand e t c).1.cmdQueue.length = e.cmdQueue.length + 1 ∧
    (AddCommand e t c).1 = { e with cmdQueue := e.cmdQueue ++
      [{ jobSequence := e.cmdQueue.length
         jobId := (AddCommand e t c).2
         command := c }] } :=
  ⟨rfl, addCommand_queue_len e t c, rfl⟩

/-- Witness for C7, on a concrete pool configured with zero workers. -/
theorem spec_C7_witness :
    (AddCommand (NewExecPool 0 zeroRnd) "2023-01-02T03:04:05Z" sampleCmd).2
        = "2023-01-02T03:04:05Z" ++ "-"
          ++ String.mk (padZeros 12 (natToDigits 0)) ++ "-"
          ++ (NewExecPool 0 zeroRnd).poolId ∧
    (AddCommand (NewExecPool 0 zeroRnd) "2023-01-02T03:04:05Z"
        sampleCmd).1.cmdQueue.length = 1 := by
  have h := spec_C7 (NewExecPool 0 zeroRnd) "2023-01-02T03:04:05Z" sampleCmd rfl
  exact ⟨h.1, h.2.1⟩

/-- C9: `GetResults` scans the result store: a `some` answer is a stored
result whose identifier matches; when no stored result matches it answers
`none`; in particular a just-enqueued identifier (result store still
empty) is reported absent.  The lookup returns only an `Option` and the
pool state is not part of the result: it is read-only. -/
theorem spec_C9 (e : ExecPool) (j : String) :
    (∀ r, GetResults e j = some r → r ∈ e.cmdOutput ∧ r.JobId = j) ∧
    ((∀ r ∈ e.cmdOutput, r.JobId ≠ j) → GetResults e j = none) ∧
    (e.cmdOutput = [] →
      ∀ t c, GetResults (AddCommand e t c).1 (AddCommand e t c).2 = none) := by
  refine ⟨?_, ?_, ?_⟩
  · intro r hr
    refine ⟨List.mem_of_find?_eq_some hr, ?_⟩
    have h := List.find?_some hr
    simpa using h
  · intro hall
    apply List.find?_eq_none.mpr
    intro r hr
    simpa using hall r hr
  · intro hempty t c
    unfold GetResults
    rw [addCommand_cmdOutput, hempty]
    rfl

/-- Witness for C9: looking up the identifier just returned by an enqueue
on a fresh pool answers `none`. -/
theorem spec_C9_witness :
    GetResults (AddCommand (NewExecPool 1 zeroRnd) "T" sampleCmd).1
      (AddCommand (NewExecPool 1 zeroRnd) "T" sampleCmd).2 = none :=
  (spec_C9 (NewExecPool 1 zeroRnd)
    (AddCommand (NewExecPool 1 zeroRnd) "T" sampleCmd).2).2.2 rfl "T" sampleCmd

/-- C3: the worker body is a total function of the received request — there
is no panic path — and the result it builds carries the job identifier,
the run error and the command's reported exit code.  In particular, for a
not-yet-run command whose process cannot be launched, Go's
`ProcessState.ExitCode` is invoked on a nil receiver and reports -1, and
the result records the launch error together with that exit code. -/
theorem spec_C3 (job : CommandRequest) :
    ((workerStep job).JobId = job.jobId ∧
     (workerStep job).RunError = job.command.run.2.1 ∧
     (workerStep job).StdOut = job.command.run.2.2.1 ∧
     (workerStep job).StdErr = job.command.run.2.2.2 ∧
     (workerStep job).ReturnCode = exitCodeOf job.command.run.1.processState) ∧
    (job.command.launchFails = true → job.command.processState = none →
      (workerStep job).RunError = some job.command.launchErrMsg ∧
      (workerStep job).ReturnCode = -1 ∧
      (workerStep job).JobId = job.jobId) := by
  refine ⟨⟨rfl, rfl, rfl, rfl, rfl⟩, ?_⟩
  intro h hps
  refine ⟨?_, ?_, rfl⟩
  · show job.command.run.2.1 = some job.command.launchErrMsg
    simp [GoCmd.run, h]
  · show exitCodeOf job.command.run.1.processState = -1
    simp [GoCmd.run, h, hps, exitCodeOf]

/-- Witness for C3: a request wrapping a command that cannot be launched. -/
theorem spec_C3_witness :
    (workerStep failReq).RunError = some failCmd.launchErrMsg ∧
    (workerStep failReq).ReturnCode = -1 := by
  have h := (spec_C3 failReq).2 rfl rfl
  exact ⟨h.1, h.2.1⟩

/-- C10: the worker never copies the request's sequence number: every
result it builds has `JobSequence = 0` (the Go composite literal omits the
field, so it gets the zero value), hence every result collected into the
store of a pool whose store was empty before `Wait` has `JobSequence = 0`,
whatever the sequence numbers of the dispatched requests were. -/
theorem spec_C10 :
    (∀ job : CommandRequest, (workerStep job).JobSequence = 0) ∧
    ∀ (e : ExecPool) (out : List CommandResult) (now : Nat),
      WorkersOutcome e out → e.cmdOutput = [] →
      ∀ r ∈ (Wait e out now).1.cmdOutput, r.JobSequence = 0 := by
  refine ⟨fun job => rfl, ?_⟩
  intro e out now hout hstore r hr
  by_cases hc : e.inputClosed = true
  · rw [wait_started hc] at hr
    have hr2 : r ∈ e.cmdOutput ++ out := hr
    rw [hstore, List.nil_append] at hr2
    by_cases hz : e.executors = 0
    · unfold WorkersOutcome at hout
      rw [if_pos hz] at hout
      rw [hout] at hr2
      simp at hr2
    · have hperm := workersOutcome_pos hz hout
      have hrm : r ∈ e.workerChanIn.map workerStep := hperm.mem_iff.mp hr2
      obtain ⟨x, _, hxr⟩ := List.mem_map.mp hrm
      rw [← hxr]
      rfl
  · have hc2 : e.inputClosed = false := by simpa using hc
    rw [wait_not_started hc2] at hr
    have hr2 : r ∈ e.cmdOutput := hr
    rw [hstore] at hr2
    simp at hr2

/-- Witness for C10: the started one-job pool, with the canonical
collection order. -/
theorem spec_C10_witness :
    ∀ r ∈ (Wait readyPool readyOut 9).1.cmdOutput, r.JobSequence = 0 := by
  apply spec_C10.2 readyPool readyOut 9
  · unfold WorkersOutcome
    rw [if_neg (by decide)]
    exact List.Perm.refl _
  · rfl

/-- C2 counterexample: the claim says a started pool accepts no further
jobs, but `AddCommand` has no started-flag guard: on a concrete started
pool it still grows the queue from 0 to 1 entries. -/
theorem spec_C2_counterexample :
    startedPool.inputClosed = true ∧
    startedPool.cmdQueue.length = 0 ∧
    (AddCommand startedPool "2023-01-02T03:04:05Z"
      sampleCmd).1.cmdQueue.length = 1 := by
  refine ⟨rfl, rfl, rfl⟩

/-- C2 as amended: the started flag transitions at most once, from false
to true (no operation resets it, and on a started pool `Start` fails
without touching it), and after it becomes true `AddEnv` does not grow the
environment-override list — but `AddCommand`, which is unguarded, still
appends to the job queue (the appended job is never dispatched, since
`Start` refuses to run again). -/
theorem spec_C2 (e : ExecPool) (t : String) (c : GoCmd) (s : String)
    (out : List CommandResult) (n1 n2 : Nat)
    (e2 : ExecPool) (t2 : String) (c2 : GoCmd) (s2 : String)
    (h : e.inputClosed = true) (h2 : e2.inputClosed = false) :
    ((AddCommand e t c).1.inputClosed = true ∧
     (AddEnv e s).1.inputClosed = true ∧
     (Start e n1).1.inputClosed = true ∧
     (Wait e out n2).1.inputClosed = true ∧
     (AddEnv e s).1.cmdEnv = e.cmdEnv ∧
     Start e n1 = (e, some "can not start again") ∧
     (AddCommand e t c).1.cmdQueue.length = e.cmdQueue.length + 1) ∧
    ((AddCommand e2 t2 c2).1.inputClosed = false ∧
     (AddEnv e2 s2).1.inputClosed = false ∧
     (Start e2 n1).1.inputClosed = true) := by
  refine ⟨⟨?_, ?_, ?_, ?_, ?_, start_started h n1, addCommand_queue_len e t c⟩,
    ?_, ?_, ?_⟩
  · rw [addCommand_inputClosed]
    exact h
  · simp [AddEnv, h]
  · rw [start_started h]
    exact h
  · rw [wait_started h]
    exact h
  · simp [AddEnv, h]
  · rw [addCommand_inputClosed]
    exact h2
  · simp [AddEnv, h2]
  · rw [start_not_started h2]

/-- Witness for C2 as amended: the concrete started pool and a fresh
pool. -/
theorem spec_C2_witness :
    (AddEnv startedPool "A=1").1.cmdEnv = startedPool.cmdEnv ∧
    Start startedPool 9 = (startedPool, some "can not start again") ∧
    (AddCommand startedPool "T" sampleCmd).1.cmdQueue.length
      = startedPool.cmdQueue.length + 1 ∧
    (Start (NewExecPool 3 zeroRnd) 0).1.inputClosed = true := by
  have h := spec_C2 startedPool "T" sampleCmd "A=1" [] 9 0
    (NewExecPool 3 zeroRnd) "T" sampleCmd "A=1" rfl rfl
  exact ⟨h.1.2.2.2.2.1, h.1.2.2.2.2.2.1, h.1.2.2.2.2.2.2, h.2.2.2⟩

/-- C8: the pool identifier is a 12-character string over the alphanumeric
alphabet, generated at construction and preserved by every operation; and
the identifiers minted by distinct enqueue calls on a pool built by any
sequence of enqueues are pairwise distinct (the zero-padded sequence
number embedded between the two delimiting dashes differs, whatever the
two formatted timestamps were). -/
theorem spec_C8 (W : Nat) (rnd : Nat → Nat) (jobs : List (String × GoCmd))
    (e : ExecPool) (t : String) (c : GoCmd) (s : String)
    (out : List CommandResult) (n : Nat) :
    ((NewExecPool W rnd).poolId.length = 12 ∧
      ∀ ch ∈ (NewExecPool W rnd).poolId.data, ch.isAlphanum) ∧
    ((AddCommand e t c).1.poolId = e.poolId ∧
      (AddEnv e s).1.poolId = e.poolId ∧
      (Start e n).1.poolId = e.poolId ∧
      (Wait e out n).1.poolId = e.poolId) ∧
    ((enqueueAll (NewExecPool W rnd) jobs).cmdQueue.map
      CommandRequest.jobId).Nodup := by
  refine ⟨⟨?_, ?_⟩, ⟨rfl, ?_, ?_, ?_⟩, ?_⟩
  · show (RandomString 12 rnd).length = 12
    simp [RandomString, String.length]
  · intro ch hch
    show ch.isAlphanum
    have hmem : ch ∈ letters := by
      simp only [NewExecPool, RandomString, mk_data, List.mem_map] at hch
      obtain ⟨i, -, hi⟩ := hch
      rw [← hi]
      exact List.get_mem _ _ _
    have hall : ∀ c2 ∈ letters, c2.isAlphanum := by decide
    exact hall ch hmem
  · by_cases hc : e.inputClosed = true
    · simp [AddEnv, hc]
    · have hc2 : e.inputClosed = false := by simpa using hc
      simp [AddEnv, hc2]
  · by_cases hc : e.inputClosed = true
    · rw [start_started hc]
    · have hc2 : e.inputClosed = false := by simpa using hc
      rw [start_not_started hc2]
  · by_cases hc : e.inputClosed = true
    · rw [wait_started hc]
    · have hc2 : e.inputClosed = false := by simpa using hc
      rw [wait_not_started hc2]
  · exact queueWF_ids_nodup (queueWF_enqueueAll (queueWF_new W rnd) jobs)

/-- General behaviour of a successful `Start` followed by `Wait` on a pool
that is not yet started, has at least one worker, and an empty result
store: both calls succeed, the store ends up holding exactly the workers'
output, and that output is a permutation of running each queued request
(with the environment overrides applied) exactly once. -/
theorem start_wait_general (e1 : ExecPool) (n1 n2 : Nat)
    (out : List CommandResult)
    (hic : e1.inputClosed = false) (hex : e1.executors ≠ 0)
    (hcout : e1.cmdOutput = [])
    (hout : WorkersOutcome (Start e1 n1).1 out) :
    (Start e1 n1).2 = none ∧
    (Wait (Start e1 n1).1 out n2).2 = none ∧
    (Wait (Start e1 n1).1 out n2).1.cmdOutput = out ∧
    out.Perm (e1.cmdQueue.map
      (fun r => workerStep (loadRequest e1.cmdEnv r))) := by
  have hstart := start_not_started hic n1
  have hexr : (Start e1 n1).1.executors ≠ 0 := by
    rw [hstart]
    exact hex
  have hperm := workersOutcome_pos hexr hout
  rw [hstart] at hperm
  have hperm2 : out.Perm
      ((e1.cmdQueue.map (loadRequest e1.cmdEnv)).map workerStep) := hperm
  rw [List.map_map] at hperm2
  refine ⟨by rw [hstart], ?_, ?_, hperm2⟩
  · rw [hstart]
    simp [Wait]
  · rw [hstart]
    simp [Wait, hcout]

/-- C1: on a pool with `N` enqueued jobs and `W` workers, `1 ≤ W ≤ N`,
`Start` and then `Wait` both return without error; afterwards the result
store holds exactly `N` results, whose job identifiers are a permutation
of the identifiers of the enqueued jobs with no duplicates (each result's
identifier names exactly one enqueued job), and the stored results are
exactly the outcome of running each enqueued command once. -/
theorem spec_C1 (W : Nat) (rnd : Nat → Nat) (jobs : List (String × GoCmd))
    (n1 n2 : Nat) (out : List CommandResult)
    (hW : 1 ≤ W) (_hWN : W ≤ jobs.length)
    (hout : WorkersOutcome
      (Start (enqueueAll (NewExecPool W rnd) jobs) n1).1 out) :
    (Start (enqueueAll (NewExecPool W rnd) jobs) n1).2 = none ∧
    (Wait (Start (enqueueAll (NewExecPool W rnd) jobs) n1).1 out n2).2
      = none ∧
    (Wait (Start (enqueueAll (NewExecPool W rnd) jobs) n1).1 out
      n2).1.cmdOutput.length = jobs.length ∧
    ((Wait (Start (enqueueAll (NewExecPool W rnd) jobs) n1).1 out
      n2).1.cmdOutput.map CommandResult.JobId).Perm
      ((enqueueAll (NewExecPool W rnd) jobs).cmdQueue.map
        CommandRequest.jobId) ∧
    ((Wait (Start (enqueueAll (NewExecPool W rnd) jobs) n1).1 out
      n2).1.cmdOutput.map CommandResult.JobId).Nodup ∧
    (Wait (Start (enqueueAll (NewExecPool W rnd) jobs) n1).1 out
      n2).1.cmdOutput.Perm
      ((enqueueAll (NewExecPool W rnd) jobs).cmdQueue.map
        (fun r => workerStep
          (loadRequest (enqueueAll (NewExecPool W rnd) jobs).cmdEnv r))) := by
  obtain ⟨hpid, hic, hex, henv, hcout, hlen⟩ :=
    enqueueAll_fields (NewExecPool W rnd) jobs
  have hic2 : (enqueueAll (NewExecPool W rnd) jobs).inputClosed = false := by
    rw [hic]
    rfl
  have hex2 : (enqueueAll (NewExecPool W rnd) jobs).executors ≠ 0 := by
    rw [hex]
    show W ≠ 0
    omega
  have hcout2 : (enqueueAll (NewExecPool W rnd) jobs).cmdOutput = [] := by
    rw [hcout]
    rfl
  have hql : (enqueueAll (NewExecPool W rnd) jobs).cmdQueue.length
      = jobs.length := by
    rw [hlen]
    simp [NewExecPool]
  obtain ⟨g1, g2, g3, g4⟩ :=
    start_wait_general (enqueueAll (NewExecPool W rnd) jobs) n1 n2 out
      hic2 hex2 hcout2 hout
  have h4 : (out.map CommandResult.JobId).Perm
      ((enqueueAll (NewExecPool W rnd) jobs).cmdQueue.map
        CommandRequest.jobId) := by
    have h := g4.map CommandResult.JobId
    rw [List.map_map] at h
    have hmap : (enqueueAll (NewExecPool W rnd) jobs).cmdQueue.map
        (CommandResult.JobId ∘ fun r => workerStep
          (loadRequest (enqueueAll (NewExecPool W rnd) jobs).cmdEnv r))
        = (enqueueAll (NewExecPool W rnd) jobs).cmdQueue.map
            CommandRequest.jobId :=
      List.map_congr_left (fun r _ => rfl)
    rwa [hmap] at h
  refine ⟨g1, g2, ?_, ?_, ?_, ?_⟩
  · rw [g3, g4.length_eq, List.length_map, hql]
  · rw [g3]
    exact h4
  · rw [g3]
    exact (h4.nodup_iff).mpr
      (queueWF_ids_nodup (queueWF_enqueueAll (queueWF_new W rnd) jobs))
  · rw [g3]
    exact g4

/-- Witness for C1: one worker, one enqueued command, the canonical
collection order. -/
theorem spec_C1_witness :
    (Start (enqueueAll (NewExecPool 1 zeroRnd) [("T", sampleCmd)]) 3).2
      = none ∧
    (Wait (Start (enqueueAll (NewExecPool 1 zeroRnd) [("T", sampleCmd)])
      3).1 readyOut 9).1.cmdOutput.length = 1 := by
  have h := spec_C1 1 zeroRnd [("T", sampleCmd)] 3 9 readyOut
    (by omega) (by simp) ?hout
  · exact ⟨h.1, by simpa using h.2.2.1⟩
  case hout =>
    unfold WorkersOutcome
    rw [if_neg (by decide)]
    exact List.Perm.refl _
